import Mathlib

/-!
Verification of the `cm` configuration-resolution and command-planning layer.

The Rust sources are shallowly embedded below: pure functions become Lean
functions, effectful calls (filesystem probes, environment reads, process
spawning, the ResultDB file read) become explicit parameters holding the
outcome of the effect, and fallible code returns `Except`.
-/

/-! ## String helpers (Rust `str` methods, over `List Char` / `String`) -/

/-- Rust `str::starts_with` (string pattern). -/
def strStartsWith (s pat : String) : Bool :=
  pat.data.isPrefixOf s.data

/-- Rust `char::to_ascii_lowercase`. -/
def asciiLower (c : Char) : Char :=
  if 'A' ≤ c ∧ c ≤ 'Z' then Char.ofNat (c.toNat + 32) else c

/-- Rust `str::eq_ignore_ascii_case`: equality after ASCII lowercasing. -/
def eqIgnoreAsciiCase (a b : String) : Bool :=
  a.data.map asciiLower == b.data.map asciiLower

/-- Rust whitespace test used by `str::trim` and friends. -/
def isWs (c : Char) : Bool :=
  c = ' ' ∨ c = '\t' ∨ c = '\n' ∨ c = '\r'

/-- Rust `str::trim_start`. -/
def trimStart (s : String) : String :=
  ⟨s.data.dropWhile isWs⟩

/-- Rust `str::trim`. -/
def trimBoth (s : String) : String :=
  ⟨(s.data.dropWhile isWs).reverse.dropWhile isWs |>.reverse⟩

/-- Rust `Vec::join` on strings. -/
def strJoin (sep : String) (xs : List String) : String :=
  String.intercalate sep xs

/-- Rust `PathBuf::push` of a relative component (the only way it is used in
the planner: an empty base yields the component itself, otherwise the two are
joined with a single separator). -/
def pathJoin (base rel : String) : String :=
  if base = "" then rel else base ++ "/" ++ rel

/-- Rust `usize::MAX` on a 64-bit host. -/
def USIZE_MAX : Nat := 18446744073709551615

/-! ## Data model shared by the planner -/

/-- `std::process::Command` as the planner constructs it: program, ordered
argument list and environment overrides (`CommandSpec` in the spec). -/
structure Cmd where
  program : String
  args : List String
  env : List (String × String)
deriving DecidableEq, Repr

/-- `cli::Quirks`. -/
inductive Quirks where
  | none
  | llvm
deriving DecidableEq, Repr

/-- The global options of `cli::Cli` that the planner consults. -/
structure Cli where
  source : Option String
  binary : Option String
  config : String
  debug : Bool
  dry_run : Bool
  quirks : Option Quirks
deriving DecidableEq, Repr

/-- `cli::Cli::final_config`. -/
def final_config (cli : Cli) : String :=
  if cli.debug then "Debug" else cli.config

/-! ## FuzzyParser (cli.rs and applause/src/lib.rs) -/

/-- The payload of the `clap::Error` built by `FuzzyParser::error`: the
rejected value plus the advertised valid values (the open namespace entry
`<inferable>*` first when one is configured, then the known values). -/
structure ClapError where
  invalid_value : String
  valid_values : List String
deriving DecidableEq, Repr

/-- `FuzzyParser::error` (identical in cli.rs and applause). -/
def fuzzyError (known_values : List String) (inferable : Option String)
    (val : String) : ClapError :=
  { invalid_value := val,
    valid_values :=
      (match inferable with
       | some p => [p ++ "*"]
       | none => []) ++ known_values }

/-- cli.rs `FuzzyParser::parse_ref_without_inferrable_prefix`: the value is
returned unchanged, unconditionally. -/
def parseRefWithoutInferrablePrefix (_known_values : List String)
    (value : String) : Except ClapError String :=
  .ok value

/-- applause `FuzzyParser::parse_ref_without_inferable_prefix`: if exactly one
known value matches ASCII-case-insensitively, return its canonical casing;
otherwise return the value unchanged. -/
def parseRefWithoutInferablePrefix (known_values : List String)
    (value : String) : Except ClapError String :=
  match known_values.filter (fun s => eqIgnoreAsciiCase s value) with
  | [unique] => .ok unique
  | _ => .ok value

/-- applause `FuzzyParser::parse_ref_with_inferable_prefix` (cli.rs has the
identically-behaving `parse_ref_with_inferrable_prefix`). -/
def parseRefWithInferablePrefix (known_values : List String) (value : String)
    (inferable : String) : Except ClapError String :=
  if strStartsWith value inferable then
    .ok value
  else
    match known_values.filter (fun s => strStartsWith s value) with
    | [unique] => .ok (inferable ++ unique)
    | _ => .error (fuzzyError known_values (some inferable) value)

deriving instance DecidableEq for Except

example : parseRefWithoutInferablePrefix ["AMDGPU", "X86"] "amdgpu" = .ok "AMDGPU" := by decide

example : parseRefWithoutInferablePrefix ["AMDGPU", "X86"] "riscv" = .ok "riscv" := by decide

example : parseRefWithInferablePrefix ["all", "llvm", "clang", "lld"] "a" "check-" = .ok "check-all" := by decide

example : parseRefWithInferablePrefix ["all", "llvm", "clang", "lld"] "ll" "check-" =
    .error ⟨"ll", ["check-*", "all", "llvm", "clang", "lld"]⟩ := by decide

example : parseRefWithInferablePrefix ["all", "llvm", "clang", "lld"] "check-foo" "check-" = .ok "check-foo" := by decide

/-! ## ConfigLayer (args.rs `Config` / `ConfigInner`) -/

/-- `ConfigInner::in_section`: the current section applies when it is the
empty/global section or when it starts with the (possibly abbreviated)
subcommand token handed to `slurp_into`. -/
def in_section (sec : String) (subcommand : String) : Bool :=
  sec == "" || strStartsWith sec subcommand

/-- The line loop of `Config::slurp_into`: a line starting with `-` is an
argument of the current section (kept when `in_section` holds); a line that is
blank or whose first non-blank char is `#` is skipped; any other line becomes
the new current section label. -/
def slurpLines (subcommand : String) : List String → String → List String → List String
  | [], _, out => out
  | line :: rest, sec, out =>
    if strStartsWith line "-" then
      slurpLines subcommand rest sec
        (if in_section sec subcommand then out ++ [line] else out)
    else if strStartsWith (trimStart line) "#" || trimBoth line == "" then
      slurpLines subcommand rest sec out
    else
      slurpLines subcommand rest line out

/-- `Config::slurp_into`: `cfg` is the resolved config file content (`none`
when no file is configured), `out` the caller's accumulator. -/
def slurp_into (cfg : Option (List String)) (subcommand : String)
    (out : List String) : List String :=
  match cfg with
  | none => out
  | some lines => slurpLines subcommand lines "" out

/-- Assigns every argument line of a config file its owning section, in file
order, following the wording of the spec for ConfigLayer. -/
def sectionedArgs : List String → String → List (String × String)
  | [], _ => []
  | line :: rest, sec =>
    if strStartsWith line "-" then
      (line, sec) :: sectionedArgs rest sec
    else if strStartsWith (trimStart line) "#" || trimBoth line == "" then
      sectionedArgs rest sec
    else
      sectionedArgs rest line

/-! ## ArgumentResolver (args.rs `build_with_pre_cli`, applause_derive) -/

/-- Modelled from the spec: the `cli::Globals` struct (absent from the
sources; only its callers are under src/) holding the environment-sourced
global defaults for source path, binary path, build type and quirks mode,
each an optional value. -/
structure Globals where
  source : Option String
  binary : Option String
  config : Option String
  quirks : Option String
deriving DecidableEq, Repr

/-- The `ArgsToVec` implementation generated by `applause_derive::data_to_vec`
for `Globals`: each present field, in declaration order, is re-expressed as an
explicit `--kebab-name=value` token. -/
def Globals.args_to_vec (g : Globals) : List String :=
  (match g.source with | some x => ["--source=" ++ x] | none => []) ++
  (match g.binary with | some x => ["--binary=" ++ x] | none => []) ++
  (match g.config with | some x => ["--config=" ++ x] | none => []) ++
  (match g.quirks with | some x => ["--quirks=" ++ x] | none => [])

/-- args.rs `PreCli`: the preprocessed command line, with the subcommand and
everything after it captured verbatim as an external subcommand. -/
structure PreCli where
  globals : Globals
  help_short : Bool
  help_long : Bool
  command : List String
deriving DecidableEq, Repr

/-- args.rs `build_with_pre_cli`. `program` is the first element of
`env::args_os()` and `cfg` the resolved config-file content. Returns `none`
for the impossible empty external-subcommand vector (the Rust `unwrap`). -/
def build_with_pre_cli (program : Option String) (cfg : Option (List String))
    (pre_cli : PreCli) : Option (List String) :=
  match pre_cli.command with
  | [] => none
  | sub :: sub_args =>
    let args : List String := match program with | some bin => [bin] | none => []
    let args := args ++ [sub]
    let args := slurp_into cfg sub args
    let args := args ++ pre_cli.globals.args_to_vec
    let args := args ++ (if pre_cli.help_short then ["-h"] else [])
    let args := args ++ (if pre_cli.help_long then ["--help"] else [])
    some (args ++ sub_args)

example :
    slurp_into (some ["--g1", "build", "--b1"]) "build" [] = ["--g1", "--b1"] := by decide

example :
    slurp_into (some ["--g1", "build", "--b1"]) "lit" [] = ["--g1"] := by decide

/-! ## ResultDB and the identifier-to-path translation table (cm.rs) -/

/-- `cm::ResultDBTest`: one record of the persisted test-result snapshot. -/
structure ResultDBTest where
  expected : Bool
  test_id : String
deriving DecidableEq, Repr

/-- `cm::ResultDB`. -/
structure ResultDB where
  tests : List ResultDBTest
deriving DecidableEq, Repr

/-- The shapes of regular expression occurring in the `REGEXES` table of
`ResultDBTest::test_path`, with Rust regex (leftmost-first, greedy, `.` not
matching a newline) semantics:
`lit s` is a literal pattern, `litThenRest s` is `s.*`,
`litAnyLit a b` is `a.*b`, and `litNonColonLit a b` is `a[^:]*b`. -/
inductive Pat where
  | lit (s : String)
  | litThenRest (s : String)
  | litAnyLit (a b : String)
  | litNonColonLit (a b : String)
deriving DecidableEq, Repr

/-- Largest start offset `j ≤ limit` in `seg` at which `b` occurs (the greedy
backtracking search for the tail literal of an `a.*b` or `a[^:]*b` pattern). -/
def lastOccurrenceWithin (b : List Char) (seg : List Char) : Nat → Option Nat
  | 0 => if b.isPrefixOf seg then some 0 else none
  | lim + 1 =>
    if b.isPrefixOf (seg.drop (lim + 1)) then some (lim + 1)
    else lastOccurrenceWithin b seg lim

/-- Length of the match of a pattern anchored at the start of `hay`, if any. -/
def Pat.matchLenAt : Pat → List Char → Option Nat
  | .lit s, hay =>
    if s.data.isPrefixOf hay then some s.data.length else none
  | .litThenRest s, hay =>
    if s.data.isPrefixOf hay then
      some (s.data.length + ((hay.drop s.data.length).takeWhile (fun c => c ≠ '\n')).length)
    else none
  | .litAnyLit a b, hay =>
    if a.data.isPrefixOf hay then
      let seg := hay.drop a.data.length
      let lim := (seg.takeWhile (fun c => c ≠ '\n')).length
      (lastOccurrenceWithin b.data seg lim).map (fun j => a.data.length + j + b.data.length)
    else none
  | .litNonColonLit a b, hay =>
    if a.data.isPrefixOf hay then
      let seg := hay.drop a.data.length
      let lim := (seg.takeWhile (fun c => c ≠ ':')).length
      (lastOccurrenceWithin b.data seg lim).map (fun j => a.data.length + j + b.data.length)
    else none

/-- Leftmost match: first start position (scanning left to right) whose
anchored match succeeds, as `(start, length)`. -/
def findFirstMatchAux (m : List Char → Option Nat) : List Char → Option (Nat × Nat)
  | [] => (m []).map (fun len => (0, len))
  | c :: t =>
    match m (c :: t) with
    | some len => some (0, len)
    | none => (findFirstMatchAux m t).map (fun p => (p.1 + 1, p.2))

/-- Leftmost-first match of a pattern in `hay`. -/
def Pat.findMatch (p : Pat) (hay : List Char) : Option (Nat × Nat) :=
  findFirstMatchAux p.matchLenAt hay

/-- Rust `Regex::is_match`. -/
def Pat.is_match (p : Pat) (hay : String) : Bool :=
  (p.findMatch hay.data).isSome

/-- Rust `Regex::replace` for the replacement strings of the table (all free
of capture references): the leftmost match is substituted, an unmatched
haystack is returned unchanged. -/
def Pat.replaceFirst (p : Pat) (hay repl : String) : String :=
  match p.findMatch hay.data with
  | none => hay
  | some (i, len) => ⟨hay.data.take i ++ repl.data ++ hay.data.drop (i + len)⟩

/-- The `REGEXES` table of `ResultDBTest::test_path`, in source order,
duplicates included. -/
def REGEXES : List (Pat × String) :=
  [ (.lit "LLVM :: ", "test/"),
    (.litThenRest "LLVM-Unit :: ", "test/Unit"),
    (.lit "LLVM :: ", "test/"),
    (.litThenRest "LLVM-Unit :: ", "test/Unit"),
    (.lit "Clang :: ", "../clang/test/"),
    (.litThenRest "Clang-Unit :: ", "../clang/test/Unit"),
    (.lit "Flang :: ", "../flang/test/"),
    (.litThenRest "flang-OldUnit :: ", "../flang/test/NonGtestUnit"),
    (.litThenRest "flang-Unit :: ", "../flang/test/Unit"),
    (.lit "lld :: ", "../lld/test/"),
    (.lit "lldb :: ", "../lldb/test/"),
    (.litThenRest "lldb-shell :: ", "../lldb/test/Shell"),
    (.litThenRest "lldb-unit :: ", "../lldb/test/Unit"),
    (.litThenRest "lldb-api :: ", "../lldb/test/API"),
    (.lit "MLIR :: ", "../mlir/test/"),
    (.litAnyLit "MLIR-Unit " ":: ", "../mlir/test/Unit"),
    (.litNonColonLit "libomptarget :: " " :: ", "../openmp/libomptarget/test/"),
    (.lit "ompt-test :: ", "../openmp/libompd/test/"),
    (.lit "libomp :: ", "../openmp/runtime/test/"),
    (.lit "OMPT multiplex :: ", "../openmp/tools/multiplex/tests/"),
    (.lit "libarcher :: ", "../openmp/tools/archer/tests/"),
    (.lit "Polly :: ", "../polly/test/"),
    (.litThenRest "Polly-Unit :: ", "../polly/test/Unit"),
    (.litThenRest "Polly - isl unit tests :: ", "../polly/test/UnitIsl") ]

/-- `cm::Paths`. -/
structure Paths where
  source : String
  binary : String
deriving DecidableEq, Repr

/-- The rule loop of `ResultDBTest::test_path`: the first matching rule wins
and its replacement is appended to the source root; with no match the
identifier itself is returned as a literal path. -/
def testPathGo (paths : Paths) (t : ResultDBTest) : List (Pat × String) → String
  | [] => t.test_id
  | (find, repl) :: rest =>
    if find.is_match t.test_id then
      pathJoin paths.source (find.replaceFirst t.test_id repl)
    else
      testPathGo paths t rest

/-- `cm::ResultDBTest::test_path`. -/
def ResultDBTest.test_path (t : ResultDBTest) (paths : Paths) : String :=
  testPathGo paths t REGEXES

example :
    ResultDBTest.test_path ⟨false, "LLVM :: a.c"⟩ ⟨"src", "bld"⟩ = "src/test/a.c" := by decide

example :
    ResultDBTest.test_path ⟨false, "LLVM-Unit :: Support/./x"⟩ ⟨"src", "bld"⟩ = "src/test/Unit" := by decide

example :
    ResultDBTest.test_path ⟨false, "foo/bar.c"⟩ ⟨"src", "bld"⟩ = "foo/bar.c" := by decide

example :
    ResultDBTest.test_path ⟨false, "libomptarget :: x86 :: api/t.c"⟩ ⟨"s", "b"⟩ =
      "s/../openmp/libomptarget/test/api/t.c" := by decide

/-! ## Command planner (cm.rs) -/

/-- `cm::build_cmd`. -/
def build_cmd (cli : Cli) (paths : Paths) : Cmd :=
  { program := "cmake",
    args := ["--build", paths.binary, "--config", final_config cli, "--"],
    env := [] }

/-- `cm::lit_json_path`: `canonBinary` holds the outcome of
`paths.binary.canonicalize()`. -/
def lit_json_path (canonBinary : Except String String) : Except String String :=
  canonBinary.map (fun p => pathJoin p "lit.json")

/-- `cm::add_lit_opts_env`: sets `LIT_OPTS` on the command; `shQuote` is the
shell-quoting function of the external `shell_quote` crate. -/
def add_lit_opts_env (shQuote : String → String) (cmd : Cmd)
    (canonBinary : Except String String) : Except String Cmd :=
  (lit_json_path canonBinary).map (fun p =>
    { cmd with env := cmd.env ++ [("LIT_OPTS", "--resultdb-output " ++ shQuote p)] })

/-- `cli::Lit`: the resolved options of the lit subcommand. -/
structure Lit where
  print_only : Bool
  xfail_export : Bool
  update_resultdb : Bool
  group : Option String
  first : Bool
  verbose : Bool
  tests : List String
  args : List String
deriving DecidableEq, Repr

/-- The ResultDB-driven test selection of `cm::plan_lit` (the `Ok(rdb)` arm):
failing records in file order, truncated to one under `--first`, each mapped
through `ResultDBTest::test_path`. -/
def litSelect (paths : Paths) (first : Bool) (rdb : ResultDB) : List String :=
  ((rdb.tests.filter (fun t => !t.expected)).take
      (if first then 1 else USIZE_MAX)).map
    (fun t => t.test_path paths)

/-- `cm::plan_lit`. `rdb` holds the outcome of `ResultDB::parse` (the planner
consults it at most once), `canonBinary` the outcome of canonicalizing the
binary path. The first component of the result collects the diagnostics
printed to stderr, the second is the fallible plan. -/
def plan_lit (shQuote : String → String) (lit : Lit) (cli : Cli) (paths : Paths)
    (rdb : Except String ResultDB) (canonBinary : Except String String) :
    List String × Except String (List Cmd) :=
  if lit.xfail_export then
    ([], rdb.map (fun db =>
      [{ program := "printf",
         args := ["%s\\n",
           "export LIT_XFAIL=\"" ++
             strJoin ";" ((db.tests.filter (fun t => !t.expected)).map
               (fun t => t.test_id)) ++ "\""],
         env := [] }]))
  else
    match lit.group with
    | some group =>
      let cmd := { build_cmd cli paths with
                     args := (build_cmd cli paths).args ++ [group] }
      if lit.update_resultdb then
        ([], (add_lit_opts_env shQuote cmd canonBinary).map (fun c => [c]))
      else
        ([], .ok [cmd])
    | none =>
      let sel : List String × List String :=
        if lit.tests.isEmpty then
          match rdb with
          | .ok db => (litSelect paths lit.first db, [])
          | .error e => ([], ["warning: ignoring lit.json: " ++ e])
        else
          (lit.tests, [])
      let args := sel.1 ++ lit.args
      let warnings := sel.2
      if args.isEmpty then
        (warnings, .ok [])
      else if lit.print_only then
        (warnings, .ok [{ program := "printf", args := "%s\\n" :: args, env := [] }])
      else
        let cmd := { program := pathJoin paths.binary "bin/llvm-lit",
                     args := (if lit.verbose then ["-a"] else []) ++ args,
                     env := if lit.verbose then
                              [("FILECHECK_OPTS", "--dump-input always")]
                            else [] }
        if lit.update_resultdb then
          (warnings, (add_lit_opts_env shQuote cmd canonBinary).map (fun c => [c]))
        else
          (warnings, .ok [cmd])

/-- `cli::Configure`: the resolved options of the configure subcommand
(`targets_to_build_alt` is the `-T` spelling documented to suppress the
implicit Native target). -/
structure Configure where
  prefix_path : List String
  generator : String
  makefiles : Bool
  flag : List String
  san : Bool
  expensive_checks : Bool
  enable_projects : Option (List String)
  targets_to_build : Option (List String)
  targets_to_build_alt : Option (List String)
  args : List String
deriving DecidableEq, Repr

/-- `cm::plan_configure`. `hasCmd` and `hasCcFlag` hold the outcomes of the
`has_command` / `has_cc_flag` feature probes, `envCflags` / `envCxxflags` the
`CFLAGS` / `CXXFLAGS` environment variables. -/
def plan_configure (hasCmd hasCcFlag : String → Except String Bool)
    (envCflags envCxxflags : Option String) (configure : Configure) (cli : Cli)
    (quirks : Quirks) (paths : Paths) : Except String (List Cmd) := do
  let mut args : List String := []
  let mut flags : List String := []
  args := args ++ ["-S", paths.source, "-B", paths.binary]
  if configure.makefiles then
    args := args ++ ["-G", "Unix Makefiles"]
  else
    args := args ++ ["-G", configure.generator]
  args := args ++ ["-DCMAKE_BUILD_TYPE=" ++ final_config cli]
  args := args ++ ["-DCMAKE_PREFIX_PATH=" ++ strJoin ";" configure.prefix_path]
  args := args ++ ["-DCMAKE_INSTALL_PREFIX=dist", "-DCMAKE_EXPORT_COMPILE_COMMANDS=On"]
  if quirks = Quirks.llvm then
    args := args ++ ["-DLLVM_ENABLE_ASSERTIONS=On", "-DLLVM_OPTIMIZED_TABLEGEN=On"]
    if (← hasCmd "sphinx-build") then
      args := args ++ ["-DLLVM_ENABLE_SPHINX=On"]
    let lld ← hasCmd "lld"
    let lldFlag ← if lld then hasCcFlag "-fuse-ld=lld" else pure false
    if lld && lldFlag then
      args := args ++ ["-DLLVM_USE_LINKER=lld"]
    else
      let gold ← hasCmd "gold"
      let goldFlag ← if gold then hasCcFlag "-fuse-ld=gold" else pure false
      if gold && goldFlag then
        args := args ++ ["-DLLVM_USE_LINKER=gold"]
  if (← hasCmd "ccache") then
    match quirks with
    | Quirks.none =>
      args := args ++ ["-DCMAKE_C_COMPILER_LAUNCHER=ccache", "-DCMAKE_CXX_COMPILER_LAUNCHER=ccache"]
    | Quirks.llvm =>
      args := args ++ ["-DLLVM_CCACHE_BUILD=On"]
  if (← hasCcFlag "-fcolor-diagnostics") then
    flags := flags ++ ["-fcolor-diagnostics"]
  if configure.san then
    match quirks with
    | Quirks.none =>
      flags := flags ++ ["-fsanitize=address,undefined"]
    | Quirks.llvm =>
      args := args ++ ["-DLLVM_USE_SANITIZER=Address;Undefined", "-DLLVM_USE_SANITIZE_COVERAGE=Yes"]
  if configure.expensive_checks then
    args := args ++ ["-DLLVM_ENABLE_EXPENSIVE_CHECKS=On", "-DLLVM_ENABLE_WERROR=Off"]
  args := args ++ ["-DLLVM_ENABLE_PROJECTS=" ++
    (match configure.enable_projects with
     | none => "llvm;clang;lld"
     | some v => strJoin ";" v)]
  args := args ++ ["-DLLVM_TARGETS_TO_BUILD=" ++
    (match configure.targets_to_build with
     | none => "all"
     | some v => strJoin ";" v)]
  let flagsStr := strJoin " " (flags ++ configure.flag)
  let maybePrependSpace : String → String := fun s =>
    if flagsStr = "" then s else " " ++ s
  let envC := match envCflags with
    | none => ""
    | some s => maybePrependSpace s
  let envCxx := match envCxxflags with
    | none => ""
    | some s => maybePrependSpace s
  args := args ++ ["-DCMAKE_C_FLAGS=" ++ flagsStr ++ envC]
  args := args ++ ["-DCMAKE_CXX_FLAGS=" ++ flagsStr ++ envCxx]
  args := args ++ configure.args
  let rm_cmd : Cmd :=
    { program := "rm",
      args := ["-rf", pathJoin paths.binary "CMakeCache.txt", pathJoin paths.binary "CMakeFiles"],
      env := [] }
  return [rm_cmd, { program := "cmake", args := args, env := [] }]

/-! ## QuirksDetector and path resolution (cm.rs `detect_quirks`, `cm`) -/

/-- `cm::detect_quirks`: `isFile` and `isDir` are the filesystem probes
(`Path::is_file`, `Path::is_dir`). -/
def detect_quirks (isFile isDir : String → Bool) (cli : Cli) : Quirks :=
  let source := cli.source.getD "."
  if !isFile (pathJoin source "CMakeLists.txt") && isDir (pathJoin source "llvm") then
    Quirks.llvm
  else
    Quirks.none

/-- The quirks resolution at the top of `cm::cm`: an explicitly supplied value
wins, otherwise the detector is consulted. -/
def resolved_quirks (isFile isDir : String → Bool) (cli : Cli) : Quirks :=
  cli.quirks.getD (detect_quirks isFile isDir cli)

/-! ## Execution (cm.rs `cm` loop, main.rs) -/

/-- The outcome of `std::process::Child::wait` as `cm` consumes it. -/
structure ExitStatus where
  success : Bool
  code : Option Int
deriving DecidableEq, Repr

/-- The error taxonomy of the top level: `commandFailed` is
`cm::CommandFailedError`, `other` any other boxed error. -/
inductive CmError where
  | commandFailed (code : Option Int)
  | other (msg : String)
deriving DecidableEq, Repr

/-- The non-dry-run execution loop of `cm::cm`: `status i` is the outcome of
spawning the `i`-th command of the plan (counted from `start`); the first
unsuccessful exit aborts with `CommandFailedError`. -/
def run_cmds (status : Nat → Except String ExitStatus) :
    Nat → List Cmd → Except CmError Unit
  | _, [] => .ok ()
  | i, _ :: rest =>
    match status i with
    | .error e => .error (.other e)
    | .ok s => if s.success then run_cmds status (i + 1) rest
               else .error (.commandFailed s.code)

/-- Whether `status` reports a successful run for index `i`. -/
def statusOk (status : Nat → Except String ExitStatus) (i : Nat) : Bool :=
  match status i with
  | .ok s => s.success
  | .error _ => false

/-- Number of commands of the plan on which a spawn is attempted by
`run_cmds` (the commands that actually run): after an unsuccessful or
unspawnable command, no further command is attempted. -/
def executedCount (status : Nat → Except String ExitStatus) :
    Nat → List Cmd → Nat
  | _, [] => 0
  | i, _ :: rest =>
    1 + (if statusOk status i then executedCount status (i + 1) rest else 0)

/-- The exit-code mapping of `main.rs`: a `CommandFailedError` mirrors the
child's code (`-1` when none is available), any other error exits `-1`, and a
clean run exits `0`. -/
def exit_code : Except CmError Unit → Int
  | .ok _ => 0
  | .error (.commandFailed c) => c.getD (-1)
  | .error (.other _) => -1

/-! ## Spec-side restatements (used to state the claims against the code) -/

/-- The spec's wording of the identifier translation: the ordered rule table
is scanned top to bottom, the first matching rule wins; the amended fallback
returns an unmatched identifier verbatim. -/
def litTranslateSpec (source : String) (rules : List (Pat × String)) (id : String) : String :=
  match rules.find? (fun r => r.1.is_match id) with
  | some r => pathJoin source (r.1.replaceFirst id r.2)
  | none => id

/-- The spec's wording of ResultDB selection: keep records with
`expected == false` in file order, truncate to the first when requested, then
translate every identifier. -/
def litSelectSpec (paths : Paths) (first : Bool) (rdb : ResultDB) : List String :=
  let failing := rdb.tests.filter (fun t => t.expected = false)
  (if first then failing.take 1 else failing).map
    (fun t => litTranslateSpec paths.source REGEXES t.test_id)

lemma testPathGo_eq_translate (paths : Paths) (t : ResultDBTest) :
    ∀ rules : List (Pat × String),
      testPathGo paths t rules = litTranslateSpec paths.source rules t.test_id
  | [] => rfl
  | (f, rp) :: rest => by
    rw [testPathGo, litTranslateSpec, List.find?]
    cases h : f.is_match t.test_id with
    | true => simp [h]
    | false => simpa [h, litTranslateSpec] using testPathGo_eq_translate paths t rest

lemma bool_not_eq_decide (b : Bool) : (!b) = decide (b = false) := by
  cases b <;> rfl

lemma slurpLines_append (sub : String) :
    ∀ (lines : List String) (sec : String) (out : List String),
      slurpLines sub lines sec out = out ++ slurpLines sub lines sec []
  | [], _, out => by simp [slurpLines]
  | line :: rest, sec, out => by
    rw [slurpLines, slurpLines]
    by_cases h1 : strStartsWith line "-"
    · simp only [h1, if_true]
      by_cases h2 : in_section sec sub
      · simp only [h2, if_true]
        rw [slurpLines_append sub rest sec (out ++ [line]),
            slurpLines_append sub rest sec ([] ++ [line])]
        simp
      · simp only [h2, if_false]
        exact slurpLines_append sub rest sec out
    · simp only [h1, if_false]
      by_cases h2 : strStartsWith (trimStart line) "#" || trimBoth line == ""
      · simp only [h2, if_true]
        exact slurpLines_append sub rest sec out
      · simp only [h2, if_false]
        exact slurpLines_append sub rest line out

lemma in_section_iff (sec sub : String) :
    in_section sec sub = true ↔ (sec = "" ∨ strStartsWith sec sub = true) := by
  simp [in_section]

lemma slurpLines_eq_sectioned (sub : String) :
    ∀ (lines : List String) (sec : String),
      slurpLines sub lines sec [] =
        (sectionedArgs lines sec).filterMap
          (fun p => if p.2 = "" ∨ strStartsWith p.2 sub = true then some p.1 else none)
  | [], _ => by simp [slurpLines, sectionedArgs]
  | line :: rest, sec => by
    rw [slurpLines, sectionedArgs]
    by_cases h1 : strStartsWith line "-"
    · simp only [h1, if_true, List.filterMap_cons]
      by_cases h2 : in_section sec sub
      · have hp : (sec = "" ∨ strStartsWith sec sub = true) := (in_section_iff sec sub).mp h2
        simp only [h2, if_true, hp]
        rw [slurpLines_append sub rest sec ([] ++ [line])]
        simp [slurpLines_eq_sectioned sub rest sec]
      · have hp : ¬(sec = "" ∨ strStartsWith sec sub = true) := by
          intro hc
          exact h2 ((in_section_iff sec sub).mpr hc)
        simp only [h2, if_false, hp]
        exact slurpLines_eq_sectioned sub rest sec
    · simp only [h1, if_false]
      by_cases h2 : strStartsWith (trimStart line) "#" || trimBoth line == ""
      · simp only [h2, if_true]
        exact slurpLines_eq_sectioned sub rest sec
      · simp only [h2, if_false]
        exact slurpLines_eq_sectioned sub rest line


lemma executedCount_lt_iff (status : Nat → Except String ExitStatus) :
    ∀ (cmds : List Cmd) (k i : Nat), i < cmds.length →
      ((i < executedCount status k cmds) ↔ ∀ j, j < i → statusOk status (k + j) = true)
  | [], _, i, hi => absurd hi (by simp)
  | _ :: rest, k, 0, _ => by
    simp [executedCount]
  | c :: rest, k, i + 1, hi => by
    rw [executedCount]
    cases hk : statusOk status k with
    | false =>
      rw [if_neg (by simp)]
      constructor
      · intro h
        omega
      · intro h
        have h0 := h 0 (Nat.succ_pos i)
        rw [Nat.add_zero, hk] at h0
        exact absurd h0 (by simp)
    | true =>
      rw [if_pos rfl]
      have ih := executedCount_lt_iff status rest (k + 1) i (by simpa using hi)
      constructor
      · intro h j hj
        cases j with
        | zero => rw [Nat.add_zero]; exact hk
        | succ j =>
          have hji : j < i := by omega
          have := (ih.mp (by omega)) j hji
          rwa [show k + 1 + j = k + (j + 1) by omega] at this
      · intro h
        have hrest : ∀ j, j < i → statusOk status (k + 1 + j) = true := by
          intro j hj
          have := h (j + 1) (by omega)
          rwa [show k + (j + 1) = k + 1 + j by omega] at this
        have := ih.mpr hrest
        omega

lemma run_cmds_fails_at (status : Nat → Except String ExitStatus) :
    ∀ (cmds : List Cmd) (k i : Nat) (s : ExitStatus), i < cmds.length →
      (∀ j, j < i → statusOk status (k + j) = true) →
      status (k + i) = .ok s → s.success = false →
      run_cmds status k cmds = .error (.commandFailed s.code)
  | [], _, i, _, hi, _, _, _ => absurd hi (by simp)
  | c :: rest, k, 0, s, _, _, hs, hfail => by
    rw [Nat.add_zero] at hs
    rw [run_cmds, hs]
    simp [hfail]
  | c :: rest, k, i + 1, s, hi, hpre, hs, hfail => by
    have h0 := hpre 0 (Nat.succ_pos i)
    rw [Nat.add_zero] at h0
    unfold statusOk at h0
    rw [run_cmds]
    split
    · next e heq =>
        rw [heq] at h0
        simp at h0
    · next s0 heq =>
        rw [heq] at h0
        simp only at h0
        rw [if_pos h0]
        refine run_cmds_fails_at status rest (k + 1) i s (by simpa using hi) ?_ ?_ hfail
        · intro j hj
          have := hpre (j + 1) (by omega)
          rwa [show k + (j + 1) = k + 1 + j by omega] at this
        · rwa [show k + 1 + i = k + (i + 1) by omega]

/-! ## Claims -/

/-- The three-record snapshot of the spec's ResultDBSelector example. -/
def exRdb : ResultDB :=
  ⟨[⟨false, "LLVM :: a.c"⟩, ⟨true, "LLVM :: b.c"⟩, ⟨false, "LLVM :: c.c"⟩]⟩

/-- C1 (amended): with no explicit tests, lit selection filters the snapshot
to records with `expected == false` preserving file order, truncates to the
first under first-only, and maps each surviving identifier through the
ordered translation rules, first match winning; an unmatched identifier
passes through verbatim as a literal path (it is not appended to the source
root). On the spec's example it yields `test/a.c` then `test/c.c` under the
source root, and only `test/a.c` under first-only. -/
theorem claim1_lit_selection (paths : Paths) :
    (∀ (first : Bool) (rdb : ResultDB), rdb.tests.length ≤ USIZE_MAX →
        litSelect paths first rdb = litSelectSpec paths first rdb) ∧
    litSelect paths false exRdb =
      [pathJoin paths.source "test/a.c", pathJoin paths.source "test/c.c"] ∧
    litSelect paths true exRdb = [pathJoin paths.source "test/a.c"] := by
  refine ⟨?_, rfl, rfl⟩
  intro first rdb h
  unfold litSelect litSelectSpec
  have hfun : (fun t : ResultDBTest => t.test_path paths) =
      fun t => litTranslateSpec paths.source REGEXES t.test_id :=
    funext fun t => testPathGo_eq_translate paths t REGEXES
  have hfilter : rdb.tests.filter (fun t => !t.expected) =
      rdb.tests.filter (fun t => decide (t.expected = false)) :=
    List.filter_congr (fun x _ => by cases hx : x.expected <;> simp [hx])
  cases first with
  | true =>
    simp only [if_true, hfilter, hfun]
  | false =>
    simp only [hfilter, hfun]
    have hff : ¬(false = true) := by simp
    rw [if_neg hff, if_neg hff,
        List.take_of_length_le (le_trans (List.length_filter_le _ _) h)]

/-- C1 counterexample: an identifier matching no translation rule is returned
verbatim by the code, not appended to the source root as the claim states. -/
theorem claim1_counterexample :
    litSelect ⟨"src", "bld"⟩ false ⟨[⟨false, "foo/bar.c"⟩]⟩ = ["foo/bar.c"] ∧
    litSelect ⟨"src", "bld"⟩ false ⟨[⟨false, "foo/bar.c"⟩]⟩ ≠
      [pathJoin "src" "foo/bar.c"] := by
  decide

/-- C1 witness: the amended selection equality at the spec's example. -/
theorem claim1_lit_selection_witness :
    exRdb.tests.length ≤ USIZE_MAX ∧
    litSelect ⟨"src", "bld"⟩ false exRdb = litSelectSpec ⟨"src", "bld"⟩ false exRdb :=
  ⟨by decide, (claim1_lit_selection ⟨"src", "bld"⟩).1 false exRdb (by decide)⟩

/-- C2: with no inferable namespace configured (mode A), the applause fuzzy
matcher canonicalizes the token when exactly one known value equals it
ASCII-case-insensitively, returns it unchanged otherwise, and never fails. -/
theorem claim2_fuzzy_mode_a (known_values : List String) (value : String) :
    (∃ r, parseRefWithoutInferablePrefix known_values value = .ok r) ∧
    (∀ u, known_values.filter (fun s => eqIgnoreAsciiCase s value) = [u] →
        parseRefWithoutInferablePrefix known_values value = .ok u) ∧
    ((known_values.filter (fun s => eqIgnoreAsciiCase s value)).length ≠ 1 →
        parseRefWithoutInferablePrefix known_values value = .ok value) := by
  cases hf : known_values.filter (fun s => eqIgnoreAsciiCase s value) with
  | nil =>
    refine ⟨⟨value, by simp [parseRefWithoutInferablePrefix, hf]⟩, ?_, ?_⟩
    · intro u hu
      exact absurd hu (by simp)
    · intro _
      simp [parseRefWithoutInferablePrefix, hf]
  | cons a tail =>
    cases tail with
    | nil =>
      refine ⟨⟨a, by simp [parseRefWithoutInferablePrefix, hf]⟩, ?_, ?_⟩
      · intro u hu
        injection hu with h1 _
        subst h1
        simp [parseRefWithoutInferablePrefix, hf]
      · intro hlen
        simp at hlen
    | cons b t2 =>
      refine ⟨⟨value, by simp [parseRefWithoutInferablePrefix, hf]⟩, ?_, ?_⟩
      · intro u hu
        exact absurd hu (by simp)
      · intro _
        simp [parseRefWithoutInferablePrefix, hf]

/-- C2 witness: a lone case-insensitive match is canonicalized. -/
theorem claim2_fuzzy_mode_a_witness :
    parseRefWithoutInferablePrefix ["AMDGPU", "X86"] "amdgpu" = .ok "AMDGPU" :=
  (claim2_fuzzy_mode_a ["AMDGPU", "X86"] "amdgpu").2.1 "AMDGPU" (by decide)

/-- C4: with an inferable namespace configured (mode B), a token already
carrying it is returned unchanged regardless of the known values; otherwise a
unique case-sensitive known-value completion is returned with the namespace
prepended, and the matcher fails with an invalid-value error naming the open
namespace and the candidate values exactly when zero or several known values
complete the token. -/
theorem claim4_fuzzy_mode_b (known_values : List String) (inferable value : String) :
    (strStartsWith value inferable = true →
        parseRefWithInferablePrefix known_values value inferable = .ok value) ∧
    (strStartsWith value inferable = false →
        (∀ u, known_values.filter (fun s => strStartsWith s value) = [u] →
            parseRefWithInferablePrefix known_values value inferable =
              .ok (inferable ++ u)) ∧
        ((known_values.filter (fun s => strStartsWith s value)).length ≠ 1 →
            parseRefWithInferablePrefix known_values value inferable =
              .error ⟨value, (inferable ++ "*") :: known_values⟩)) ∧
    ((∃ e, parseRefWithInferablePrefix known_values value inferable = .error e) ↔
        strStartsWith value inferable = false ∧
          (known_values.filter (fun s => strStartsWith s value)).length ≠ 1) := by
  by_cases hv : strStartsWith value inferable = true
  · refine ⟨fun _ => by simp [parseRefWithInferablePrefix, hv], ?_, ?_⟩
    · intro hc
      rw [hv] at hc
      exact absurd hc (by simp)
    · constructor
      · rintro ⟨e, he⟩
        rw [parseRefWithInferablePrefix, if_pos hv] at he
        exact absurd he (by simp)
      · rintro ⟨hc, _⟩
        rw [hv] at hc
        exact absurd hc (by simp)
  · have hv' : strStartsWith value inferable = false := by
      cases h : strStartsWith value inferable with
      | true => exact absurd h hv
      | false => rfl
    cases hf : known_values.filter (fun s => strStartsWith s value) with
    | nil =>
      refine ⟨fun hc => absurd hc hv, fun _ => ⟨?_, ?_⟩, ?_⟩
      · intro u hu
        exact absurd hu (by simp)
      · intro _
        simp [parseRefWithInferablePrefix, hv', hf, fuzzyError]
      · constructor
        · intro _
          refine ⟨hv', ?_⟩
          simp
        · intro _
          refine ⟨⟨value, (inferable ++ "*") :: known_values⟩, ?_⟩
          simp [parseRefWithInferablePrefix, hv', hf, fuzzyError]
    | cons a tail =>
      cases tail with
      | nil =>
        refine ⟨fun hc => absurd hc hv, fun _ => ⟨?_, ?_⟩, ?_⟩
        · intro u hu
          injection hu with h1 _
          subst h1
          simp [parseRefWithInferablePrefix, hv', hf]
        · intro hlen
          simp at hlen
        · constructor
          · rintro ⟨e, he⟩
            rw [parseRefWithInferablePrefix, if_neg hv, hf] at he
            exact absurd he (by simp)
          · rintro ⟨_, hlen⟩
            simp at hlen
      | cons b t2 =>
        refine ⟨fun hc => absurd hc hv, fun _ => ⟨?_, ?_⟩, ?_⟩
        · intro u hu
          exact absurd hu (by simp)
        · intro _
          simp [parseRefWithInferablePrefix, hv', hf, fuzzyError]
        · constructor
          · intro _
            refine ⟨hv', ?_⟩
            simp
          · intro _
            refine ⟨⟨value, (inferable ++ "*") :: known_values⟩, ?_⟩
            simp [parseRefWithInferablePrefix, hv', hf, fuzzyError]

/-- C4 witness: a token already in the open namespace is returned unchanged
even though it completes no known value. -/
theorem claim4_fuzzy_mode_b_witness :
    parseRefWithInferablePrefix ["all", "llvm", "clang", "lld"] "check-foo" "check-" =
      .ok "check-foo" :=
  (claim4_fuzzy_mode_b ["all", "llvm", "clang", "lld"] "check-" "check-foo").1 (by decide)

/-- C5: `slurp_into` appends, in file order, exactly the config argument
lines whose owning section is the global section or is prefix-matched by the
subcommand name; with a global and a "build" section, "build" receives the
global then the build-scoped arguments and "lit" only the global ones. -/
theorem claim5_slurp_sections (cfgLines : List String) (sub : String) :
    (∀ out, slurp_into (some cfgLines) sub out =
        out ++ slurp_into (some cfgLines) sub []) ∧
    (slurp_into (some cfgLines) sub [] =
      (sectionedArgs cfgLines "").filterMap
        (fun p => if p.2 = "" ∨ strStartsWith p.2 sub = true then some p.1 else none)) ∧
    slurp_into (some ["--g1", "build", "--b1"]) "build" [] = ["--g1", "--b1"] ∧
    slurp_into (some ["--g1", "build", "--b1"]) "lit" [] = ["--g1"] := by
  refine ⟨?_, ?_, by decide, by decide⟩
  · intro out
    unfold slurp_into
    exact slurpLines_append sub cfgLines "" out
  · unfold slurp_into
    exact slurpLines_eq_sectioned sub cfgLines ""

/-- C6: the cooked argument vector is the program name, the subcommand token,
the config-file arguments for that subcommand, the environment-sourced global
defaults re-expressed as explicit long options, the original help flags, and
the remaining literal tokens, in that order. -/
theorem claim6_cooked_argument_order (bin : String) (cfg : Option (List String))
    (g : Globals) (hs hl : Bool) (sub : String) (rest : List String) :
    build_with_pre_cli (some bin) cfg ⟨g, hs, hl, sub :: rest⟩ =
      some ([bin, sub] ++ slurp_into cfg sub [] ++ g.args_to_vec ++
        ((if hs then ["-h"] else []) ++ (if hl then ["--help"] else [])) ++ rest) := by
  have hsl : slurp_into cfg sub [bin, sub] = [bin, sub] ++ slurp_into cfg sub [] := by
    cases cfg with
    | none => simp [slurp_into]
    | some lines =>
      unfold slurp_into
      exact slurpLines_append sub lines "" [bin, sub]
  show some (((((slurp_into cfg sub ([bin] ++ [sub])) ++ g.args_to_vec) ++
      (if hs then ["-h"] else [])) ++ (if hl then ["--help"] else [])) ++ rest) = _
  rw [show [bin] ++ [sub] = [bin, sub] from rfl, hsl]
  simp [List.append_assoc]

/-- The all-defaults configure invocation (no explicit projects, runtimes or
targets; every feature probe reporting absence; no inherited flag variables). -/
def exConfigure : Configure :=
  ⟨[], "Ninja", false, [], false, false, none, none, none, []⟩

/-- A `Cli` with every global option left at its default. -/
def exCli : Cli := ⟨none, none, "Release", false, false, none⟩

/-- A probe oracle reporting every tool and compiler flag as unavailable. -/
def probeAbsent : String → Except String Bool := fun _ => .ok false

/-- C3: with no explicit lists the plan carries the documented defaults
verbatim; but with one explicit target the emitted target list is exactly the
explicit one — the host-native "Native" target the cli.rs documentation
promises is never added (`targets_to_build_alt` is ignored entirely by
`plan_configure`), which is the code bug this claim exposes. -/
theorem claim3_configure_defaults_and_missing_native :
    plan_configure probeAbsent probeAbsent none none exConfigure exCli
        Quirks.none ⟨"src", "bld"⟩ =
      .ok [⟨"rm", ["-rf", "bld/CMakeCache.txt", "bld/CMakeFiles"], []⟩,
           ⟨"cmake",
            ["-S", "src", "-B", "bld", "-G", "Ninja",
             "-DCMAKE_BUILD_TYPE=Release", "-DCMAKE_PREFIX_PATH=",
             "-DCMAKE_INSTALL_PREFIX=dist", "-DCMAKE_EXPORT_COMPILE_COMMANDS=On",
             "-DLLVM_ENABLE_PROJECTS=llvm;clang;lld", "-DLLVM_TARGETS_TO_BUILD=all",
             "-DCMAKE_C_FLAGS=", "-DCMAKE_CXX_FLAGS="], []⟩] ∧
    plan_configure probeAbsent probeAbsent none none
        { exConfigure with targets_to_build := some ["AMDGPU"] } exCli
        Quirks.none ⟨"src", "bld"⟩ =
      .ok [⟨"rm", ["-rf", "bld/CMakeCache.txt", "bld/CMakeFiles"], []⟩,
           ⟨"cmake",
            ["-S", "src", "-B", "bld", "-G", "Ninja",
             "-DCMAKE_BUILD_TYPE=Release", "-DCMAKE_PREFIX_PATH=",
             "-DCMAKE_INSTALL_PREFIX=dist", "-DCMAKE_EXPORT_COMPILE_COMMANDS=On",
             "-DLLVM_ENABLE_PROJECTS=llvm;clang;lld", "-DLLVM_TARGETS_TO_BUILD=AMDGPU",
             "-DCMAKE_C_FLAGS=", "-DCMAKE_CXX_FLAGS="], []⟩] := by
  decide

/-- C7 (amended): with xfail-export not requested and neither a group nor
explicit tests given, an unreadable snapshot only prepends a diagnostic to
the outcome of planning with an empty failing-test list, and an empty failing
list together with no trailing forwarded arguments yields a plan with no
commands and no error. -/
theorem claim7_lit_degradation (shQuote : String → String) (lit : Lit) (cli : Cli)
    (paths : Paths) (canonBinary : Except String String)
    (hx : lit.xfail_export = false) (hg : lit.group = none) (ht : lit.tests = []) :
    (∀ e, plan_lit shQuote lit cli paths (.error e) canonBinary =
        (("warning: ignoring lit.json: " ++ e) ::
          (plan_lit shQuote lit cli paths (.ok ⟨[]⟩) canonBinary).1,
         (plan_lit shQuote lit cli paths (.ok ⟨[]⟩) canonBinary).2)) ∧
    (∀ db, db.tests.filter (fun t => !t.expected) = [] → lit.args = [] →
        plan_lit shQuote lit cli paths (.ok db) canonBinary = ([], .ok [])) := by
  constructor
  · intro e
    simp only [plan_lit, hx, hg, ht, litSelect]
    simp
    split_ifs <;> rfl
  · intro db hdb ha
    simp [plan_lit, hx, hg, ht, litSelect, hdb, ha]

/-- The lit options of a run with only trailing forwarded arguments: no
explicit tests, no group, ResultDB updates disabled, `-- -v` forwarded. -/
def exLitTrailing : Lit := ⟨false, false, false, none, false, false, [], ["-v"]⟩

/-- C7 counterexample: the computed test list is empty, yet the plan contains
a runner command, because the trailing forwarded arguments are appended to
the list before the emptiness check. -/
theorem claim7_counterexample :
    litSelect ⟨"src", "bld"⟩ false ⟨[]⟩ = [] ∧
    plan_lit id exLitTrailing exCli ⟨"src", "bld"⟩ (.ok ⟨[]⟩) (.ok "/bld") =
      ([], .ok [⟨"bld/bin/llvm-lit", ["-v"], []⟩]) := by
  decide

/-- The all-defaults lit options: run every known-failing test, updating the
ResultDB. -/
def exLitDefault : Lit := ⟨false, false, true, none, false, false, [], []⟩

/-- C7 witness: an empty snapshot with no trailing arguments plans no
commands. -/
theorem claim7_lit_degradation_witness :
    plan_lit id exLitDefault exCli ⟨"src", "bld"⟩ (.ok ⟨[]⟩) (.ok "/bld") =
      ([], .ok []) :=
  (claim7_lit_degradation id exLitDefault exCli ⟨"src", "bld"⟩ (.ok "/bld")
    rfl rfl rfl).2 ⟨[]⟩ rfl rfl

/-- C8: a command runs exactly when all earlier commands of the plan exited
successfully, the first unsuccessful exit aborts the plan with
`CommandFailedError` carrying that command's code, the process exit code
mirrors it (`-1` when no code is available), and any other fatal error exits
with the generic failure code `-1`. -/
theorem claim8_sequential_execution (status : Nat → Except String ExitStatus)
    (cmds : List Cmd) :
    (∀ i, i < cmds.length →
        ((i < executedCount status 0 cmds) ↔ ∀ j, j < i → statusOk status j = true)) ∧
    (∀ i s, i < cmds.length → (∀ j, j < i → statusOk status j = true) →
        status i = .ok s → s.success = false →
        run_cmds status 0 cmds = .error (.commandFailed s.code) ∧
        exit_code (run_cmds status 0 cmds) = s.code.getD (-1)) ∧
    (∀ e, exit_code (.error (.other e)) = -1) := by
  refine ⟨?_, ?_, fun e => rfl⟩
  · intro i hi
    have h := executedCount_lt_iff status cmds 0 i hi
    simpa using h
  · intro i s hi hpre hs hfail
    have hrun := run_cmds_fails_at status cmds 0 i s hi (by simpa using hpre)
      (by simpa using hs) hfail
    refine ⟨hrun, ?_⟩
    rw [hrun]
    rfl

/-- A placeholder command of an executed plan. -/
def exCmd : Cmd := ⟨"true", [], []⟩

/-- A status oracle whose first command fails with exit code 7. -/
def exStatusFail : Nat → Except String ExitStatus := fun _ => .ok ⟨false, some 7⟩

/-- C8 witness: a one-command plan whose command exits 7 aborts with
`CommandFailedError(7)` and the process exits 7. -/
theorem claim8_sequential_execution_witness :
    run_cmds exStatusFail 0 [exCmd] = .error (.commandFailed (some 7)) ∧
    exit_code (run_cmds exStatusFail 0 [exCmd]) = 7 :=
  (claim8_sequential_execution exStatusFail [exCmd]).2.1 0 ⟨false, some 7⟩
    (by decide) (fun j hj => absurd hj (Nat.not_lt_zero j)) rfl rfl

/-- C9: an explicitly supplied quirks value always wins; otherwise the
resolved value is Llvm exactly when `CMakeLists.txt` is absent at the
candidate source path and the `llvm` subdirectory is present there, and
Generic (`none`) in every other case. -/
theorem claim9_quirks_resolution (isFile isDir : String → Bool) (cli : Cli) :
    (∀ q, cli.quirks = some q → resolved_quirks isFile isDir cli = q) ∧
    (cli.quirks = none →
      ((resolved_quirks isFile isDir cli = Quirks.llvm) ↔
        (isFile (pathJoin (cli.source.getD ".") "CMakeLists.txt") = false ∧
         isDir (pathJoin (cli.source.getD ".") "llvm") = true)) ∧
      ((resolved_quirks isFile isDir cli = Quirks.none) ↔
        ¬(isFile (pathJoin (cli.source.getD ".") "CMakeLists.txt") = false ∧
          isDir (pathJoin (cli.source.getD ".") "llvm") = true))) := by
  constructor
  · intro q hq
    simp [resolved_quirks, hq]
  · intro hq
    simp only [resolved_quirks, hq, Option.getD_none]
    unfold detect_quirks
    cases hf : isFile (pathJoin (cli.source.getD ".") "CMakeLists.txt") <;>
      cases hd : isDir (pathJoin (cli.source.getD ".") "llvm") <;>
        simp [hf, hd]

/-- C9 witness: with no explicit value, a missing root `CMakeLists.txt` and a
present `llvm` subdirectory resolve to the Llvm quirks mode. -/
theorem claim9_quirks_resolution_witness :
    resolved_quirks (fun _ => false) (fun _ => true) exCli = Quirks.llvm :=
  ((claim9_quirks_resolution (fun _ => false) (fun _ => true) exCli).2 rfl).1.mpr
    ⟨rfl, rfl⟩

/-- C10: under the xfail-export flag the planner consults the ResultDB before
any other selection logic, a failed read propagates as a fatal planning error
with no diagnostic degradation, and a successful read plans exactly one
printf command exporting `LIT_XFAIL` bound to the failing identifiers joined
by ";". -/
theorem claim10_xfail_export (shQuote : String → String) (lit : Lit) (cli : Cli)
    (paths : Paths) (canonBinary : Except String String)
    (hx : lit.xfail_export = true) :
    (∀ e, plan_lit shQuote lit cli paths (.error e) canonBinary = ([], .error e)) ∧
    (∀ db, plan_lit shQuote lit cli paths (.ok db) canonBinary =
      ([], .ok [⟨"printf",
        ["%s\\n",
         "export LIT_XFAIL=\"" ++
           strJoin ";" ((db.tests.filter (fun t => !t.expected)).map
             (fun t => t.test_id)) ++ "\""], []⟩])) := by
  constructor
  · intro e
    simp [plan_lit, hx, Except.map]
  · intro db
    simp [plan_lit, hx, Except.map]

/-- The lit options of an xfail-export invocation. -/
def exLitXfail : Lit := ⟨false, true, true, none, false, false, [], []⟩

/-- C10 witness: an xfail-export plan over the example snapshot is the single
printf command exporting the two failing identifiers. -/
theorem claim10_xfail_export_witness :
    plan_lit id exLitXfail exCli ⟨"src", "bld"⟩ (.ok exRdb) (.ok "/bld") =
      ([], .ok [⟨"printf",
        ["%s\\n",
         "export LIT_XFAIL=\"" ++
           strJoin ";" ((exRdb.tests.filter (fun t => !t.expected)).map
             (fun t => t.test_id)) ++ "\""], []⟩]) :=
  (claim10_xfail_export id exLitXfail exCli ⟨"src", "bld"⟩ (.ok "/bld") rfl).2 exRdb
